import Mathlib

/- A shallow embedding of src/vue-active-view.js: the three visibility
detection policies, option validation, the activation controller body that
toggles the CSS class, the registry kept by the directive hooks, and the
scroll debounce timer.  Geometry (rect top/bottom, viewport height) and time
are modelled with rationals; link and content handles are natural numbers. -/

namespace ActiveView

/-- A registered pair as seen by one evaluation pass: the link handle together
with the geometry (getCommonValues: rect.top and rect.bottom of the content
element) measured relative to the viewport top, as in the source's
getBoundingClientRect convention. -/
structure Entry where
  link : ℕ
  top : ℚ
  bottom : ℚ
  deriving DecidableEq, Repr

/-- Source function partiallyVisible(wHeight): scans the registry in order and
returns the first link whose content satisfies
top < wHeight and bottom >= OPTS.advance * wHeight; null when none does. -/
def partiallyVisible (advance wh : ℚ) : List Entry → Option ℕ
  | [] => none
  | e :: rest =>
    if e.top < wh ∧ advance * wh ≤ e.bottom then some e.link
    else partiallyVisible advance wh rest

/-- Source function completelyVisible(wHeight): scans the registry in order and
returns the first link whose content satisfies
top >= 0 and bottom <= wHeight; null when none does. -/
def completelyVisible (wh : ℚ) : List Entry → Option ℕ
  | [] => none
  | e :: rest =>
    if 0 ≤ e.top ∧ e.bottom ≤ wh then some e.link
    else completelyVisible wh rest

theorem partiallyVisible_eq_none_iff (advance wh : ℚ) (els : List Entry) :
    partiallyVisible advance wh els = none ↔
      ∀ e ∈ els, ¬(e.top < wh ∧ advance * wh ≤ e.bottom) := by
  induction els with
  | nil => simp [partiallyVisible]
  | cons e rest ih =>
      by_cases h : e.top < wh ∧ advance * wh ≤ e.bottom
      · simp only [partiallyVisible, if_pos h, List.forall_mem_cons]
        constructor
        · intro hc; exact absurd hc (by simp)
        · intro hc; exact absurd h hc.1
      · simp only [partiallyVisible, if_neg h, ih, List.forall_mem_cons]
        tauto

theorem partiallyVisible_first (advance wh : ℚ) (l1 : List Entry) (e : Entry)
    (l2 : List Entry)
    (hl1 : ∀ x ∈ l1, ¬(x.top < wh ∧ advance * wh ≤ x.bottom))
    (he : e.top < wh ∧ advance * wh ≤ e.bottom) :
    partiallyVisible advance wh (l1 ++ e :: l2) = some e.link := by
  induction l1 with
  | nil => simp [partiallyVisible, he]
  | cons x l1 ih =>
      have hx := hl1 x (by simp)
      simp only [List.cons_append, partiallyVisible, if_neg hx]
      exact ih (fun y hy => hl1 y (by simp [hy]))

theorem completelyVisible_eq_none_iff (wh : ℚ) (els : List Entry) :
    completelyVisible wh els = none ↔
      ∀ e ∈ els, ¬(0 ≤ e.top ∧ e.bottom ≤ wh) := by
  induction els with
  | nil => simp [completelyVisible]
  | cons e rest ih =>
      by_cases h : 0 ≤ e.top ∧ e.bottom ≤ wh
      · simp only [completelyVisible, if_pos h, List.forall_mem_cons]
        constructor
        · intro hc; exact absurd hc (by simp)
        · intro hc; exact absurd h hc.1
      · simp only [completelyVisible, if_neg h, ih, List.forall_mem_cons]
        tauto

theorem completelyVisible_first (wh : ℚ) (l1 : List Entry) (e : Entry)
    (l2 : List Entry)
    (hl1 : ∀ x ∈ l1, ¬(0 ≤ x.top ∧ x.bottom ≤ wh))
    (he : 0 ≤ e.top ∧ e.bottom ≤ wh) :
    completelyVisible wh (l1 ++ e :: l2) = some e.link := by
  induction l1 with
  | nil => simp [completelyVisible, he]
  | cons x l1 ih =>
      have hx := hl1 x (by simp)
      simp only [List.cons_append, completelyVisible, if_neg hx]
      exact ih (fun y hy => hl1 y (by simp [hy]))

/-- Claim C1: the partial policy returns the link of the first pair in
registry order whose geometry satisfies top < wHeight and
bottom >= advance * wHeight, and none when no pair qualifies; in particular
with wHeight 1000 and advance 1/5 a pair with top 300 and bottom 900
qualifies and a pair with top 1200 and bottom 1800 does not. -/
theorem partial_policy_first_qualifying (els : List Entry) (wh advance : ℚ)
    (h0 : 0 ≤ advance) (h1 : advance ≤ 1) :
    (partiallyVisible advance wh els = none ↔
        ∀ e ∈ els, ¬(e.top < wh ∧ advance * wh ≤ e.bottom))
    ∧ (∀ l1 e l2, els = l1 ++ e :: l2 →
        (∀ x ∈ l1, ¬(x.top < wh ∧ advance * wh ≤ x.bottom)) →
        (e.top < wh ∧ advance * wh ≤ e.bottom) →
        partiallyVisible advance wh els = some e.link)
    ∧ partiallyVisible (1/5) 1000 [⟨1, 300, 900⟩] = some 1
    ∧ partiallyVisible (1/5) 1000 [⟨2, 1200, 1800⟩] = none := by
  refine ⟨partiallyVisible_eq_none_iff _ _ _, ?_,
    by norm_num [partiallyVisible], by norm_num [partiallyVisible]⟩
  rintro l1 e l2 rfl hl1 he
  exact partiallyVisible_first _ _ _ _ _ hl1 he

/-- Witness for C1: the scenario with viewport height 1000 and advance 1/5,
where the non-qualifying pair is registered first and the qualifying pair
second, so the qualifying pair wins. -/
theorem partial_policy_first_qualifying_witness :
    (0:ℚ) ≤ 1/5 ∧ (1/5:ℚ) ≤ 1 ∧
    partiallyVisible (1/5) 1000 [⟨2, 1200, 1800⟩, ⟨1, 300, 900⟩] = some 1 := by
  refine ⟨by norm_num, by norm_num, ?_⟩
  refine (partial_policy_first_qualifying [⟨2, 1200, 1800⟩, ⟨1, 300, 900⟩] 1000
      (1/5) (by norm_num) (by norm_num)).2.1
      [⟨2, 1200, 1800⟩] ⟨1, 300, 900⟩ [] rfl ?_ (by norm_num)
  intro x hx
  rw [List.mem_singleton] at hx
  subst hx
  norm_num

/-- Claim C3: the complete policy returns the link of the first pair in
registry order whose geometry satisfies top >= 0 and bottom <= wHeight, and
none when no pair qualifies; the first registered qualifying pair wins. -/
theorem complete_policy_first_fully_visible (els : List Entry) (wh : ℚ) :
    (completelyVisible wh els = none ↔
        ∀ e ∈ els, ¬(0 ≤ e.top ∧ e.bottom ≤ wh))
    ∧ (∀ l1 e l2, els = l1 ++ e :: l2 →
        (∀ x ∈ l1, ¬(0 ≤ x.top ∧ x.bottom ≤ wh)) →
        (0 ≤ e.top ∧ e.bottom ≤ wh) →
        completelyVisible wh els = some e.link) := by
  refine ⟨completelyVisible_eq_none_iff _ _, ?_⟩
  rintro l1 e l2 rfl hl1 he
  exact completelyVisible_first _ _ _ _ hl1 he

/-- Witness for C3: viewport height 800; a pair with top -5 is excluded even
though registered first, and two qualifying pairs are settled in favour of the
first-registered one. -/
theorem complete_policy_first_fully_visible_witness :
    completelyVisible 800 [⟨2, -5, 300⟩, ⟨1, 10, 790⟩] = some 1 ∧
    completelyVisible 800 [⟨1, 10, 790⟩, ⟨3, 20, 700⟩] = some 1 := by
  constructor
  · refine (complete_policy_first_fully_visible [⟨2, -5, 300⟩, ⟨1, 10, 790⟩]
      800).2 [⟨2, -5, 300⟩] ⟨1, 10, 790⟩ [] rfl ?_ (by norm_num)
    intro x hx
    rw [List.mem_singleton] at hx
    subst hx
    norm_num
  · exact (complete_policy_first_fully_visible [⟨1, 10, 790⟩, ⟨3, 20, 700⟩]
      800).2 [] ⟨1, 10, 790⟩ [⟨3, 20, 700⟩] rfl (by simp) (by norm_num)

/-- The loop of the source function screenspace(wHeight), carrying the running
biggestShare and newActiveLink accumulators.  A pair is skipped when
top > wHeight or bottom < 0; otherwise its share is
(height - topReduction - bottomReduction) / wHeight, and on a strict
improvement the accumulators are updated, breaking out (returning the just
recorded link) when the share reaches OPTS.largeEnough. -/
def screenspaceGo (largeEnough wh : ℚ) :
    List Entry → ℚ → Option ℕ → Option ℕ
  | [], _, winner => winner
  | e :: rest, biggestShare, winner =>
    if e.top > wh ∨ e.bottom < 0 then
      screenspaceGo largeEnough wh rest biggestShare winner
    else
      let height := e.bottom - e.top
      let topReduction := if e.top < 0 then -e.top else 0
      let bottomReduction := if e.bottom > wh then e.bottom - wh else 0
      let share := (height - topReduction - bottomReduction) / wh
      if share > biggestShare then
        if share ≥ largeEnough then some e.link
        else screenspaceGo largeEnough wh rest share (some e.link)
      else screenspaceGo largeEnough wh rest biggestShare winner

/-- Source function screenspace(wHeight): the loop started with
biggestShare 0 and newActiveLink null. -/
def screenspace (largeEnough wh : ℚ) (els : List Entry) : Option ℕ :=
  screenspaceGo largeEnough wh els 0 none

/-- The screenspace policy exactly as claim C2 words it: skip a pair when
top > wHeight or bottom < 0; otherwise compute
share = ((bottom - top) - max 0 (-top) - max 0 (bottom - wHeight)) / wHeight;
stop scanning as soon as a share reaches largeEnough and return that pair;
otherwise track the strictly greatest share starting from 0 and return the
tracked pair (none when no considered pair has positive share). -/
def screenspaceClaimedGo (largeEnough wh : ℚ) :
    List Entry → ℚ → Option ℕ → Option ℕ
  | [], _, winner => winner
  | e :: rest, biggestShare, winner =>
    if e.top > wh ∨ e.bottom < 0 then
      screenspaceClaimedGo largeEnough wh rest biggestShare winner
    else
      let share := ((e.bottom - e.top) - max 0 (-e.top)
        - max 0 (e.bottom - wh)) / wh
      if share ≥ largeEnough then some e.link
      else if share > biggestShare then
        screenspaceClaimedGo largeEnough wh rest share (some e.link)
      else screenspaceClaimedGo largeEnough wh rest biggestShare winner

/-- The claimed policy started with running maximum 0 and no winner. -/
def screenspaceClaimed (largeEnough wh : ℚ) (els : List Entry) : Option ℕ :=
  screenspaceClaimedGo largeEnough wh els 0 none

theorem screenspace_reductions_eq_max (wh : ℚ) (e : Entry) :
    (if e.top < 0 then -e.top else 0) = max 0 (-e.top)
    ∧ (if e.bottom > wh then e.bottom - wh else 0) = max 0 (e.bottom - wh) := by
  constructor
  · rcases lt_or_le e.top 0 with h | h
    · rw [if_pos h, max_eq_right (by linarith)]
    · rw [if_neg (not_lt.mpr h), max_eq_left (by linarith)]
  · rcases lt_or_le wh e.bottom with h | h
    · rw [if_pos h, max_eq_right (by linarith)]
    · rw [if_neg (not_lt.mpr h), max_eq_left (by linarith)]

theorem screenspaceGo_eq_claimed (largeEnough wh : ℚ) (els : List Entry) :
    ∀ biggestShare winner, biggestShare < largeEnough →
      screenspaceGo largeEnough wh els biggestShare winner
        = screenspaceClaimedGo largeEnough wh els biggestShare winner := by
  induction els with
  | nil => intro b w _; rfl
  | cons e rest ih =>
      intro b w hb
      by_cases hskip : e.top > wh ∨ e.bottom < 0
      · simp only [screenspaceGo, screenspaceClaimedGo, if_pos hskip]
        exact ih b w hb
      · have hred := screenspace_reductions_eq_max wh e
        simp only [screenspaceGo, screenspaceClaimedGo, if_neg hskip,
          hred.1, hred.2]
        set share := ((e.bottom - e.top) - max 0 (-e.top)
          - max 0 (e.bottom - wh)) / wh with hshare
        by_cases hle : share ≥ largeEnough
        · have hgt : share > b := lt_of_lt_of_le hb hle
          rw [if_pos hgt, if_pos hle, if_pos hle]
        · simp only [if_neg hle]
          by_cases hgt : share > b
          · simp only [if_pos hgt]
            exact ih share (some e.link) (lt_of_not_le hle)
          · simp only [if_neg hgt]
            exact ih b w hb

/-- Counterexample to claim C2 as stated: with viewport height 1000,
largeEnough 0 (an allowed value in the unit interval) and a single considered
pair of zero height (top 0, bottom 0, hence share 0), the claim's early stop
clause says the scan stops at that pair and returns it (its share reaches
largeEnough), while the code never selects a pair whose share does not
strictly exceed the running maximum 0, and returns none. -/
theorem screenspace_claim_cex :
    screenspaceClaimed 0 1000 [⟨1, 0, 0⟩] = some 1
    ∧ screenspace 0 1000 [⟨1, 0, 0⟩] = none
    ∧ ((0:ℚ) ≤ 0 ∧ (0:ℚ) ≤ 1 ∧ (0:ℚ) < 1000) := by
  refine ⟨?_, ?_, by norm_num⟩
  · show screenspaceClaimedGo 0 1000 [⟨1, 0, 0⟩] 0 none = some 1
    norm_num [screenspaceClaimedGo]
  · show screenspaceGo 0 1000 [⟨1, 0, 0⟩] 0 none = none
    norm_num [screenspaceGo]

/-- Claim C2 amended: the code agrees with the claimed description of the
screenspace policy whenever largeEnough is strictly positive; the early stop
additionally requires the share to strictly exceed the running maximum, which
is automatic once largeEnough exceeds 0, but makes a difference at
largeEnough 0 as the counterexample shows. -/
theorem screenspace_matches_claim_of_pos (els : List Entry)
    (largeEnough wh : ℚ) (hpos : 0 < largeEnough) (hle1 : largeEnough ≤ 1)
    (hwh : 0 < wh) :
    screenspace largeEnough wh els = screenspaceClaimed largeEnough wh els :=
  screenspaceGo_eq_claimed largeEnough wh els 0 none hpos

/-- Witness for the amended C2, on the spec scenario: largeEnough 1/2 and
viewport height 1000; the first pair has share 2/5, the second share 1, so the
scan stops at the second pair and both descriptions return it. -/
theorem screenspace_matches_claim_of_pos_witness :
    screenspace (1/2) 1000 [⟨1, -100, 400⟩, ⟨2, 0, 1000⟩]
      = screenspaceClaimed (1/2) 1000 [⟨1, -100, 400⟩, ⟨2, 0, 1000⟩]
    ∧ screenspace (1/2) 1000 [⟨1, -100, 400⟩, ⟨2, 0, 1000⟩] = some 2 := by
  constructor
  · exact screenspace_matches_claim_of_pos [⟨1, -100, 400⟩, ⟨2, 0, 1000⟩]
      (1/2) 1000 (by norm_num) (by norm_num) (by norm_num)
  · show screenspaceGo (1/2) 1000 [⟨1, -100, 400⟩, ⟨2, 0, 1000⟩] 0 none
      = some 2
    norm_num [screenspaceGo]

/-- The option object after Object.assign with the defaults.  Fields carry
the JS types documented for them (strings and numbers); option values of a
wrong JS kind are outside this embedding, whose typed fields make the
source's typeof checks hold by construction.  NaN is not representable in the
rational field, matching the fact that isNumber rejects NaN. -/
structure Opts where
  className : String
  updateDelay : ℚ
  method : String
  advance : ℚ
  largeEnough : ℚ
  deriving DecidableEq, Repr

/-- The defaults installed by Object.assign in the source. -/
def defaultOpts : Opts :=
  { className := "active-view-link", updateDelay := 50, method := "partial",
    advance := 1/5, largeEnough := 1/2 }

/-- The keys of the source's DETECTION_METHODS dispatch object, used by the
hasOwnProperty check in validateOpts. -/
def DETECTION_METHODS : List String := ["partial", "screenspace", "complete"]

/-- Source function validateOpts, returning the error message thrown, or none
when construction succeeds.  The first branch of the source checks
isString(OPTS.className), which is satisfied by construction here (the field
is a string), so that branch can never produce an error; the remaining
branches are transcribed in the source's order together with their exact
message texts (PREFIX ++ err ++ INFIX ++ invalidOpt ++ SUFFIX).  Numeric
invalid values are rendered with the rational toString, standing in for JS
number formatting. -/
def validateOpts (o : Opts) : Option String :=
  if o.updateDelay < 0 then
    some ("[v-active-view] Invalid option for "
      ++ "\"updateDelay\". Needs to be a number greater than or equal to 0."
      ++ " Passed option: " ++ toString o.updateDelay ++ ".")
  else if ¬ (o.method ∈ DETECTION_METHODS) then
    some ("[v-active-view] Invalid option for "
      ++ "\"className\". Needs to be a string of value \"partial\", \"screenspace\" or \"complete\"."
      ++ " Passed option: " ++ o.method ++ ".")
  else if ¬ (0 ≤ o.advance ∧ o.advance ≤ 1) then
    some ("[v-active-view] Invalid option for "
      ++ "\"advance\". Needs to be a number between 0 and 1."
      ++ " Passed option: " ++ toString o.advance ++ ".")
  else if ¬ (0 ≤ o.largeEnough ∧ o.largeEnough ≤ 1) then
    some ("[v-active-view] Invalid option for "
      ++ "\"largeEnough\". Needs to be a number between 0 and 1."
      ++ " Passed option: " ++ toString o.largeEnough ++ ".")
  else none

/-- Counterexample to claim C5 as stated: the empty string violates the
non-empty constraint the §6 table gives for className, yet construction with
it (and defaults elsewhere) does not throw — the code only checks that
className is a string. -/
theorem empty_className_accepted_cex :
    validateOpts { defaultOpts with className := "" } = none
    ∧ ({ defaultOpts with className := "" } : Opts).className = "" := by
  constructor
  · show validateOpts
      { className := "", updateDelay := 50, method := "partial",
        advance := 1/5, largeEnough := 1/2 } = none
    rw [validateOpts]
    rw [if_neg (by norm_num), if_neg (by simp [DETECTION_METHODS]),
      if_neg (by norm_num), if_neg (by norm_num)]
  · rfl

/-- Claim C5 amended: construction throws iff updateDelay is negative, or
method is not one of partial, screenspace, complete, or advance lies outside
the unit interval, or largeEnough lies outside the unit interval; the
className constraint actually enforced is only that it is a string, so the
empty string is accepted and §6's non-emptiness is not checked. -/
theorem validateOpts_throws_iff (o : Opts) :
    (validateOpts o).isSome = true ↔
      (o.updateDelay < 0 ∨ o.method ∉ DETECTION_METHODS
        ∨ o.advance < 0 ∨ 1 < o.advance
        ∨ o.largeEnough < 0 ∨ 1 < o.largeEnough) := by
  rw [validateOpts]
  by_cases h1 : o.updateDelay < 0
  · simp [h1]
  rw [if_neg h1]
  by_cases h2 : o.method ∈ DETECTION_METHODS
  · rw [if_neg (by simpa using h2)]
    by_cases h3 : 0 ≤ o.advance ∧ o.advance ≤ 1
    · rw [if_neg (by simpa using h3)]
      by_cases h4 : 0 ≤ o.largeEnough ∧ o.largeEnough ≤ 1
      · rw [if_neg (by simpa using h4)]
        simp only [Option.isSome_none]
        constructor
        · intro hc; exact absurd hc (by simp)
        · rintro (hc | hc | hc | hc | hc | hc) <;>
            first
              | exact absurd hc h1
              | exact absurd h2 hc
              | exact absurd hc (not_lt.mpr h3.1)
              | exact absurd hc (not_lt.mpr h3.2)
              | exact absurd hc (not_lt.mpr h4.1)
              | exact absurd hc (not_lt.mpr h4.2)
      · rw [if_pos h4]
        simp only [Option.isSome_some, true_iff]
        rcases not_and_or.mp h4 with hc | hc
        · exact Or.inr (Or.inr (Or.inr (Or.inr (Or.inl (not_le.mp hc)))))
        · exact Or.inr (Or.inr (Or.inr (Or.inr (Or.inr (not_le.mp hc)))))
    · rw [if_pos h3]
      simp only [Option.isSome_some, true_iff]
      rcases not_and_or.mp h3 with hc | hc
      · exact Or.inr (Or.inr (Or.inl (not_le.mp hc)))
      · exact Or.inr (Or.inr (Or.inr (Or.inl (not_le.mp hc))))
  · rw [if_pos h2]
    simp only [Option.isSome_some, true_iff]
    exact Or.inr (Or.inl h2)

/-- Claim C6 (code bug evaluation): with an invalid method value and every
other option at its default, the thrown message describes the method
constraint but names the className option — the source sets
err to a string starting with quoted className in the method branch — and
appends the supplied value; the claim (and the evident intent) is that the
message name the method option. -/
theorem invalid_method_error_names_className :
    validateOpts { defaultOpts with method := "bogus" }
      = some ("[v-active-view] Invalid option for \"className\". Needs to be a string of value \"partial\", \"screenspace\" or \"complete\". Passed option: bogus.")
    ∧ ({ defaultOpts with method := "bogus" } : Opts).method = "bogus" := by
  constructor
  · show validateOpts
      { className := "active-view-link", updateDelay := 50, method := "bogus",
        advance := 1/5, largeEnough := 1/2 } = some _
    rw [validateOpts]
    rw [if_neg (by norm_num), if_pos (by simp [DETECTION_METHODS])]
    rfl
  · rfl

/-- A classList mutation on a link handle: removal or addition of the
configured class name. -/
inductive Mut where
  | removeClass (link : ℕ)
  | addClass (link : ℕ)
  deriving DecidableEq, Repr

/-- The controller state owned by the closure: the oldActive slot and, for
each link handle, whether it currently carries OPTS.className. -/
structure CtrlState where
  oldActive : Option ℕ
  hasClass : ℕ → Bool

/-- Effect of one classList mutation on the class membership map. -/
def applyMut (c : ℕ → Bool) : Mut → (ℕ → Bool)
  | Mut.removeClass l => fun x => if x = l then false else c x
  | Mut.addClass l => fun x => if x = l then true else c x

/-- The body of the timeout callback inside the source's updateActive: given
the evaluator result newActiveLink, do nothing when it is null; otherwise
remove the class from oldActive when oldActive is set, add the class to
newActiveLink, and store it in oldActive.  Returns the new state together
with the list of classList mutations issued, in order. -/
def updateActiveFired (newActiveLink : Option ℕ) (s : CtrlState) :
    CtrlState × List Mut :=
  match newActiveLink with
  | none => (s, [])
  | some l =>
    let muts := (match s.oldActive with
      | some o => [Mut.removeClass o, Mut.addClass l]
      | none => [Mut.addClass l])
    ({ oldActive := some l, hasClass := muts.foldl applyMut s.hasClass },
      muts)

/-- Counterexample to claim C4 as stated: starting from no active link, with a
registry whose single pair qualifies under the partial policy, the first
evaluation elects link 1; the second evaluation, with registry and geometry
unchanged, returns the same link as oldActive yet still issues one class
removal and one class addition (the source mutates whenever the evaluator
returns a non-null link, without comparing it to oldActive). -/
theorem same_winner_still_mutates_cex :
    (updateActiveFired (partiallyVisible (1/5) 1000 [⟨1, 300, 900⟩])
        ((updateActiveFired (partiallyVisible (1/5) 1000 [⟨1, 300, 900⟩])
          ⟨none, fun _ => false⟩).1)).2
      = [Mut.removeClass 1, Mut.addClass 1]
    ∧ ([Mut.removeClass 1, Mut.addClass 1] : List Mut) ≠ [] := by
  have h : partiallyVisible (1/5) 1000 [⟨1, 300, 900⟩] = some 1 := by
    norm_num [partiallyVisible]
  rw [h]
  exact ⟨rfl, by simp⟩

/-- Claim C4 amended: evaluating twice with an unchanged registry and
unchanged geometry (hence the same evaluator result both times) yields the
same winner, and the second evaluation issues no mutation when the result is
none, but re-issues exactly one removal and one addition of the class on the
same (unchanged) winning link when the result is a link; every link's class
membership is left unchanged by the second evaluation, so the re-application
has no net effect. -/
theorem second_eval_same_winner_net_noop (r : Option ℕ) (s0 : CtrlState) :
    ((updateActiveFired r (updateActiveFired r s0).1).1.oldActive
        = (updateActiveFired r s0).1.oldActive)
    ∧ ((updateActiveFired r (updateActiveFired r s0).1).2 = []
        ∨ ∃ l, r = some l
          ∧ (updateActiveFired r (updateActiveFired r s0).1).2
              = [Mut.removeClass l, Mut.addClass l])
    ∧ ∀ x, (updateActiveFired r (updateActiveFired r s0).1).1.hasClass x
        = (updateActiveFired r s0).1.hasClass x := by
  match r with
  | none => exact ⟨rfl, Or.inl rfl, fun x => rfl⟩
  | some l =>
      refine ⟨rfl, Or.inr ⟨l, rfl, rfl⟩, fun x => ?_⟩
      show (List.foldl applyMut ((updateActiveFired (some l) s0).1.hasClass)
          [Mut.removeClass l, Mut.addClass l]) x
        = (updateActiveFired (some l) s0).1.hasClass x
      have h1 : (updateActiveFired (some l) s0).1.hasClass l = true := by
        match hs : s0.oldActive with
        | none => simp [updateActiveFired, hs, applyMut]
        | some o => simp [updateActiveFired, hs, applyMut]
      simp only [List.foldl, applyMut]
      by_cases hx : x = l
      · subst hx; simp [h1]
      · simp [hx]

/-- Claim C10: when a link is active and the evaluator returns none, the
timeout body performs no mutation at all: the state (oldActive and every
class membership) is unchanged, the previously active link keeps the class,
and no classList operation is issued. -/
theorem eval_none_no_mutation (s : CtrlState) (l : ℕ)
    (h1 : s.oldActive = some l) (h2 : s.hasClass l = true) :
    updateActiveFired none s = (s, [])
    ∧ (updateActiveFired none s).1.oldActive = some l
    ∧ (updateActiveFired none s).1.hasClass l = true := by
  exact ⟨rfl, h1, h2⟩

/-- Witness for C10 at a concrete state: link 1 active and decorated, the
evaluator finding no qualifying pair. -/
theorem eval_none_no_mutation_witness :
    updateActiveFired none ⟨some 1, fun x => x == 1⟩
      = (⟨some 1, fun x => x == 1⟩, [])
    ∧ (updateActiveFired none ⟨some 1, fun x => x == 1⟩).1.oldActive = some 1
    ∧ (updateActiveFired none
        ⟨some 1, fun x => x == 1⟩).1.hasClass 1 = true :=
  eval_none_no_mutation ⟨some 1, fun x => x == 1⟩ 1 rfl rfl

/-- The value stored in the elements object for one identifier: the link
element and the content element looked up by getElementById at bind time. -/
structure Pair where
  link : ℕ
  content : ℕ
  deriving DecidableEq, Repr

/-- The JS object assignment elements[contentId] = pair: when the key is
present the value is replaced in place (JS objects keep the original key
position on overwrite), otherwise the entry is appended, matching the
insertion-order enumeration of string keys by for-in. -/
def objSet : List (String × Pair) → String → Pair → List (String × Pair)
  | [], id, p => [(id, p)]
  | e :: rest, id, p =>
    if e.1 = id then (id, p) :: rest else e :: objSet rest id p

/-- The JS delete elements[id]: the entry with that key is removed, an absent
key is a no-op. -/
def objDelete (reg : List (String × Pair)) (id : String) :
    List (String × Pair) :=
  reg.filter (fun e => decide (e.1 ≠ id))

/-- Property access elements[id] for reading. -/
def jsGet : List (String × Pair) → String → Option Pair
  | [], _ => none
  | e :: rest, id => if e.1 = id then some e.2 else jsGet rest id

/-- The mutable closure state of the directive factory: the isBound flag, the
elements registry, and whether the scroll listener is actually attached to
the document (the effect of addEventListener and removeEventListener). -/
structure DirState where
  isBound : Bool
  elements : List (String × Pair)
  subscribed : Bool
  deriving DecidableEq, Repr

/-- The state before any directive hook has run. -/
def initState : DirState := { isBound := false, elements := [], subscribed := false }

/-- Externally visible actions of the hooks: attaching the scroll listener,
detaching it, and invoking updateActive (requesting an evaluation). -/
inductive Evt where
  | subscribe
  | unsubscribe
  | evalRequest
  deriving DecidableEq, Repr

/-- The directive's inserted hook: when not yet bound, attach the scroll
listener, set isBound, and call updateActive once; then store the
(link, content) pair under the bound identifier. -/
def inserted (s : DirState) (id : String) (p : Pair) : DirState × List Evt :=
  if s.isBound then
    ({ s with elements := objSet s.elements id p }, [])
  else
    ({ isBound := true, elements := objSet s.elements id p,
       subscribed := true }, [Evt.subscribe, Evt.evalRequest])

/-- The directive's unbind hook: delete the entry, and when no bound elements
remain, detach the scroll listener and reset isBound. -/
def unbind (s : DirState) (id : String) : DirState × List Evt :=
  let els := objDelete s.elements id
  if els.isEmpty then
    ({ isBound := false, elements := els, subscribed := false },
      [Evt.unsubscribe])
  else
    ({ s with elements := els }, [])

/-- A lifecycle operation: one inserted or one unbind call. -/
inductive LOp where
  | bindOp (id : String) (p : Pair)
  | unbindOp (id : String)
  deriving DecidableEq, Repr

/-- Apply one lifecycle operation. -/
def applyOp (s : DirState) : LOp → DirState × List Evt
  | LOp.bindOp id p => inserted s id p
  | LOp.unbindOp id => unbind s id

/-- Run a sequence of lifecycle operations from the initial closure state. -/
def runOps (ops : List LOp) : DirState :=
  ops.foldl (fun s op => (applyOp s op).1) initState

/-- The lifecycle invariant: isBound holds iff the registry is non-empty, and
the listener is attached iff isBound. -/
def DirInv (s : DirState) : Prop :=
  (s.isBound = true ↔ s.elements ≠ []) ∧ s.subscribed = s.isBound

theorem objSet_ne_nil (reg : List (String × Pair)) (id : String) (p : Pair) :
    objSet reg id p ≠ [] := by
  match reg with
  | [] => simp [objSet]
  | e :: rest =>
      rw [objSet]
      by_cases h : e.1 = id
      · simp [h]
      · simp [h]

theorem applyOp_inv (s : DirState) (op : LOp) (h : DirInv s) :
    DirInv (applyOp s op).1 := by
  match op with
  | LOp.bindOp id p =>
      show DirInv (inserted s id p).1
      rw [inserted]
      by_cases hb : s.isBound
      · rw [if_pos hb]
        exact ⟨by simpa using ⟨fun _ => objSet_ne_nil _ _ _, fun _ => hb⟩,
          by simpa [hb] using h.2⟩
      · rw [if_neg hb]
        exact ⟨by simpa using objSet_ne_nil s.elements id p, rfl⟩
  | LOp.unbindOp id =>
      show DirInv (unbind s id).1
      rw [unbind]
      by_cases he : (objDelete s.elements id).isEmpty
      · simp only [if_pos he]
        exact ⟨by simpa using (List.isEmpty_iff).mp he, rfl⟩
      · simp only [if_neg he]
        have hne : objDelete s.elements id ≠ [] := by
          intro hc; exact he (by simp [hc])
        have hb : s.isBound = true := by
          rcases h with ⟨h1, _⟩
          apply h1.mpr
          intro hc
          exact hne (by simp [objDelete, hc])
        exact ⟨by simpa [hne] using hb, by simpa [hb] using h.2⟩

theorem runOps_inv (ops : List LOp) : DirInv (runOps ops) := by
  suffices h : ∀ (l : List LOp) (s : DirState), DirInv s →
      DirInv (l.foldl (fun s op => (applyOp s op).1) s) by
    exact h ops initState ⟨by simp [initState], rfl⟩
  intro l
  induction l with
  | nil => intro s hs; exact hs
  | cons op rest ih =>
      intro s hs
      exact ih _ (applyOp_inv s op hs)

/-- Claim C7: in every state reachable by the directive hooks, isBound holds
iff the registry is non-empty and the scroll listener is attached iff
isBound; a bind emits the subscribe action (followed by exactly one
evaluation request) iff the registry was empty, every bind leaves the
listener attached, and after an unbind the listener is detached iff the
registry became empty — so the subscription is acquired exactly on the
empty-to-nonempty transition, held while the registry stays non-empty,
released exactly when it empties, and re-acquired by a later first bind. -/
theorem subscription_iff_nonempty_registry (ops : List LOp) :
    ((runOps ops).isBound = true ↔ (runOps ops).elements ≠ [])
    ∧ (runOps ops).subscribed = (runOps ops).isBound
    ∧ (∀ id p, (inserted (runOps ops) id p).2
        = if (runOps ops).elements = [] then [Evt.subscribe, Evt.evalRequest]
          else [])
    ∧ (∀ id p, (inserted (runOps ops) id p).1.subscribed = true)
    ∧ (∀ id, ((unbind (runOps ops) id).1.subscribed = false
        ↔ objDelete (runOps ops).elements id = [])) := by
  obtain ⟨h1, h2⟩ := runOps_inv ops
  refine ⟨h1, h2, ?_, ?_, ?_⟩
  · intro id p
    rw [inserted]
    by_cases hb : (runOps ops).isBound
    · rw [if_pos hb, if_neg (by simpa using h1.mp hb)]
    · rw [if_neg hb]
      have : (runOps ops).elements = [] := by
        by_contra hc
        exact hb (h1.mpr hc)
      rw [if_pos this]
  · intro id p
    rw [inserted]
    by_cases hb : (runOps ops).isBound
    · rw [if_pos hb]
      show (runOps ops).subscribed = true
      rw [h2]; exact hb
    · rw [if_neg hb]
  · intro id
    rw [unbind]
    by_cases he : (objDelete (runOps ops).elements id).isEmpty
    · rw [if_pos he]
      simpa using (List.isEmpty_iff).mp he
    · rw [if_neg he]
      have hne : objDelete (runOps ops).elements id ≠ [] := by
        intro hc; exact he (by simp [hc])
      have hb : (runOps ops).isBound = true := by
        apply h1.mpr
        intro hc
        exact hne (by simp [objDelete, hc])
      show ((runOps ops).subscribed = false ↔ _)
      rw [h2, hb]
      simp [hne]

theorem objSet_keys (reg : List (String × Pair)) (id : String) (p : Pair) :
    (objSet reg id p).map Prod.fst
      = if id ∈ reg.map Prod.fst then reg.map Prod.fst
        else reg.map Prod.fst ++ [id] := by
  induction reg with
  | nil => simp [objSet]
  | cons e rest ih =>
      rw [objSet]
      by_cases h : e.1 = id
      · simp [h]
      · by_cases hm : id ∈ rest.map Prod.fst <;>
          simp [h, Ne.symm h, hm, ih]

theorem objSet_keys_nodup (reg : List (String × Pair)) (id : String)
    (p : Pair) (h : (reg.map Prod.fst).Nodup) :
    ((objSet reg id p).map Prod.fst).Nodup := by
  rw [objSet_keys]
  by_cases hm : id ∈ reg.map Prod.fst
  · rwa [if_pos hm]
  · rw [if_neg hm]
    simp [List.nodup_append, h, hm]

theorem objDelete_keys_nodup (reg : List (String × Pair)) (id : String)
    (h : (reg.map Prod.fst).Nodup) :
    ((objDelete reg id).map Prod.fst).Nodup := by
  exact h.sublist (List.Sublist.map Prod.fst (List.filter_sublist reg))

theorem runOps_keys_nodup (ops : List LOp) :
    (((runOps ops).elements).map Prod.fst).Nodup := by
  suffices h : ∀ (l : List LOp) (s : DirState),
      ((s.elements).map Prod.fst).Nodup →
      (((l.foldl (fun s op => (applyOp s op).1) s).elements).map
        Prod.fst).Nodup by
    exact h ops initState (by simp [initState])
  intro l
  induction l with
  | nil => intro s hs; exact hs
  | cons op rest ih =>
      intro s hs
      refine ih _ ?_
      match op with
      | LOp.bindOp id p =>
          show (((inserted s id p).1.elements).map Prod.fst).Nodup
          rw [inserted]
          by_cases hb : s.isBound
          · rw [if_pos hb]; exact objSet_keys_nodup _ _ _ hs
          · rw [if_neg hb]; exact objSet_keys_nodup _ _ _ hs
      | LOp.unbindOp id =>
          show (((unbind s id).1.elements).map Prod.fst).Nodup
          rw [unbind]
          by_cases he : (objDelete s.elements id).isEmpty
          · rw [if_pos he]; exact objDelete_keys_nodup _ _ hs
          · rw [if_neg he]; exact objDelete_keys_nodup _ _ hs

theorem objSet_length_of_mem (reg : List (String × Pair)) (id : String)
    (p : Pair) (h : id ∈ reg.map Prod.fst) :
    (objSet reg id p).length = reg.length := by
  induction reg with
  | nil => simp at h
  | cons e rest ih =>
      rw [objSet]
      by_cases he : e.1 = id
      · simp [he]
      · rw [if_neg he]
        have hm : id ∈ rest.map Prod.fst := by
          rw [List.map_cons, List.mem_cons] at h
          rcases h with h1 | h1
          · exact absurd h1.symm he
          · exact h1
        simp [ih hm]

theorem jsGet_objSet_self (reg : List (String × Pair)) (id : String)
    (p : Pair) : jsGet (objSet reg id p) id = some p := by
  induction reg with
  | nil => simp [objSet, jsGet]
  | cons e rest ih =>
      rw [objSet]
      by_cases he : e.1 = id
      · rw [if_pos he]
        simp [jsGet]
      · rw [if_neg he]
        rw [jsGet, if_neg he]
        exact ih

theorem jsGet_objSet_other (reg : List (String × Pair)) (id : String)
    (p : Pair) (k : String) (hk : k ≠ id) :
    jsGet (objSet reg id p) k = jsGet reg k := by
  induction reg with
  | nil =>
      show jsGet [(id, p)] k = none
      simp only [jsGet]
      rw [if_neg (Ne.symm hk)]
  | cons e rest ih =>
      rw [objSet]
      by_cases he : e.1 = id
      · rw [if_pos he, jsGet, if_neg (Ne.symm hk), jsGet, if_neg (he ▸ Ne.symm hk)]
      · rw [if_neg he, jsGet, jsGet]
        by_cases hek : e.1 = k
        · rw [if_pos hek, if_pos hek]
        · rw [if_neg hek, if_neg hek]
          exact ih

theorem objDelete_of_not_mem (reg : List (String × Pair)) (id : String)
    (h : id ∉ reg.map Prod.fst) : objDelete reg id = reg := by
  rw [objDelete, List.filter_eq_self]
  intro e he
  simp only [decide_eq_true_eq]
  intro hc
  exact h (List.mem_map.mpr ⟨e, he, hc⟩)

/-- Claim C9: after every sequence of bind and unbind operations the registry
keys are pairwise distinct; binding an already registered identifier keeps
the entry count, stores the new pair under that identifier, and leaves the
entry of every other identifier unchanged; unbinding an absent identifier
leaves the registry exactly as it was. -/
theorem registry_unique_keys_replace :
    (∀ ops : List LOp, (((runOps ops).elements).map Prod.fst).Nodup)
    ∧ (∀ (reg : List (String × Pair)) (id : String) (p : Pair),
        id ∈ reg.map Prod.fst → (objSet reg id p).length = reg.length)
    ∧ (∀ (reg : List (String × Pair)) (id : String) (p : Pair),
        jsGet (objSet reg id p) id = some p)
    ∧ (∀ (reg : List (String × Pair)) (id : String) (p : Pair) (k : String),
        k ≠ id → jsGet (objSet reg id p) k = jsGet reg k)
    ∧ (∀ (reg : List (String × Pair)) (id : String),
        id ∉ reg.map Prod.fst → objDelete reg id = reg) :=
  ⟨runOps_keys_nodup, objSet_length_of_mem, jsGet_objSet_self,
    jsGet_objSet_other, objDelete_of_not_mem⟩

/-- Witness for C9 at concrete registries: rebinding key a replaces its pair
while keeping the count and the entry at key b, and unbinding the absent key
z changes nothing. -/
theorem registry_unique_keys_replace_witness :
    (objSet [("a", ⟨1, 1⟩), ("b", ⟨2, 2⟩)] "a" ⟨3, 3⟩).length = 2
    ∧ jsGet (objSet [("a", ⟨1, 1⟩), ("b", ⟨2, 2⟩)] "a" ⟨3, 3⟩) "a"
        = some ⟨3, 3⟩
    ∧ jsGet (objSet [("a", ⟨1, 1⟩), ("b", ⟨2, 2⟩)] "a" ⟨3, 3⟩) "b"
        = jsGet [("a", ⟨1, 1⟩), ("b", ⟨2, 2⟩)] "b"
    ∧ objDelete [("a", ⟨1, 1⟩)] "z" = [("a", ⟨1, 1⟩)] := by
  refine ⟨?_, ?_, ?_, ?_⟩
  · exact registry_unique_keys_replace.2.1 [("a", ⟨1, 1⟩), ("b", ⟨2, 2⟩)]
      "a" ⟨3, 3⟩ (by simp)
  · exact registry_unique_keys_replace.2.2.1 [("a", ⟨1, 1⟩), ("b", ⟨2, 2⟩)]
      "a" ⟨3, 3⟩
  · exact registry_unique_keys_replace.2.2.2.1 [("a", ⟨1, 1⟩), ("b", ⟨2, 2⟩)]
      "a" ⟨3, 3⟩ "b" (by simp)
  · exact registry_unique_keys_replace.2.2.2.2 [("a", ⟨1, 1⟩)] "z" (by simp)

/-- The timer environment of one controller closure: the next timer id the
host will hand out, the pending timeouts (id paired with absolute fire time),
and the scrollTimeout variable holding the id of the last scheduled
timeout. -/
structure TimerState where
  nextId : ℕ
  pending : List (ℕ × ℚ)
  scrollTimeout : Option ℕ
  deriving DecidableEq, Repr

/-- window.clearTimeout(scrollTimeout): the pending timeout whose id is the
stored one is cancelled. -/
def clearStoredTimeout (s : TimerState) : TimerState :=
  { s with pending :=
      s.pending.filter (fun q => decide (some q.1 ≠ s.scrollTimeout)) }

/-- window.setTimeout(..., delay) at absolute fire time fireAt: a fresh timer
id is allocated, the timeout is enqueued, and its id is stored in
scrollTimeout. -/
def setTimeoutAt (s : TimerState) (fireAt : ℚ) : TimerState :=
  { nextId := s.nextId + 1,
    pending := s.pending ++ [(s.nextId, fireAt)],
    scrollTimeout := some s.nextId }

/-- Source function updateActive, as invoked by one scroll notification at
absolute time now: clear the stored timeout, then schedule the evaluation
callback at now + OPTS.updateDelay. -/
def updateActiveTimed (delay now : ℚ) (s : TimerState) : TimerState :=
  setTimeoutAt (clearStoredTimeout s) (now + delay)

/-- One scroll notification at time t: any pending timeout whose fire time
has already passed fires first (its fire time is recorded as an evaluation),
then updateActive runs. -/
def notifyStep (delay : ℚ) : TimerState × List ℚ → ℚ → TimerState × List ℚ
  | (s, evals), t =>
    (updateActiveTimed delay t
        { s with pending := s.pending.filter (fun q => decide (¬ q.2 ≤ t)) },
      evals ++ (s.pending.filter (fun q => decide (q.2 ≤ t))).map Prod.snd)

/-- The timer environment before any notification. -/
def initTimer : TimerState := { nextId := 0, pending := [], scrollTimeout := none }

/-- Process a burst of scroll notifications, given in time order. -/
def runBurst (delay : ℚ) (ts : List ℚ) : TimerState × List ℚ :=
  ts.foldl (notifyStep delay) (initTimer, [])

/-- All evaluation times produced by a burst: those fired during the burst,
followed by the still pending timeouts, which fire once the burst
quiesces. -/
def evalTimes (delay : ℚ) (ts : List ℚ) : List ℚ :=
  (runBurst delay ts).2 ++ (runBurst delay ts).1.pending.map Prod.snd

/-- At most one pending timeout, and it is the one scrollTimeout stores. -/
def TimerInv (s : TimerState) : Prop :=
  s.pending.length ≤ 1 ∧ ∀ q ∈ s.pending, some q.1 = s.scrollTimeout

theorem notifyStep_single (delay t tn : ℚ) (i n : ℕ) (evals : List ℚ)
    (hlt : tn < t + delay) :
    notifyStep delay (⟨n, [(i, t + delay)], some i⟩, evals) tn
      = (⟨n + 1, [(n, tn + delay)], some n⟩, evals) := by
  have hnot : ¬ (t + delay ≤ tn) := not_le.mpr hlt
  simp [notifyStep, updateActiveTimed, clearStoredTimeout, setTimeoutAt,
    hnot]

theorem burst_aux (delay : ℚ) (rest : List ℚ) :
    ∀ (t : ℚ) (i n : ℕ) (evals : List ℚ),
    List.Chain (fun a b => a ≤ b ∧ b - a < delay) t rest →
    ∃ j m, rest.foldl (notifyStep delay) (⟨n, [(i, t + delay)], some i⟩, evals)
      = (⟨m, [(j, (t :: rest).getLastD 0 + delay)], some j⟩, evals) := by
  induction rest with
  | nil =>
      intro t i n evals _
      exact ⟨i, n, by simp [List.getLastD]⟩
  | cons t2 rest2 ih =>
      intro t i n evals hch
      cases hch with
      | cons hr hch2 =>
          rw [List.foldl_cons,
            notifyStep_single delay t t2 i n evals (by
              have := hr.2; linarith)]
          obtain ⟨j, m, hjm⟩ := ih t2 n (n + 1) evals hch2
          refine ⟨j, m, ?_⟩
          rw [hjm]
          have hg : (t :: t2 :: rest2).getLastD 0
              = (t2 :: rest2).getLastD 0 := by
            simp [List.getLastD_cons]
          rw [hg]

theorem clearStored_of_all (s : TimerState)
    (h : ∀ q ∈ s.pending, some q.1 = s.scrollTimeout) :
    (clearStoredTimeout s).pending = [] := by
  rw [clearStoredTimeout]
  simp only [List.filter_eq_nil_iff]
  intro q hq
  simp [h q hq]

theorem notifyStep_inv (delay t : ℚ) (s : TimerState) (evals : List ℚ)
    (h : TimerInv s) : TimerInv (notifyStep delay (s, evals) t).1 := by
  have hclear : ((clearStoredTimeout
      { s with pending :=
          s.pending.filter (fun q => decide (¬ q.2 ≤ t)) }).pending) = [] :=
    clearStored_of_all _ (fun q hq => h.2 q (List.mem_of_mem_filter hq))
  simp only [notifyStep, updateActiveTimed, setTimeoutAt]
  constructor
  · rw [hclear]
    simp
  · intro q hq
    rw [hclear] at hq
    simp only [List.nil_append, List.mem_singleton] at hq
    simp [hq]

theorem runBurst_inv (delay : ℚ) (ts : List ℚ) :
    TimerInv (runBurst delay ts).1 := by
  suffices h : ∀ (l : List ℚ) (sp : TimerState × List ℚ), TimerInv sp.1 →
      TimerInv (l.foldl (notifyStep delay) sp).1 by
    exact h ts (initTimer, []) ⟨by simp [initTimer], by simp [initTimer]⟩
  intro l
  induction l with
  | nil => intro sp hsp; exact hsp
  | cons t rest ih =>
      intro sp hsp
      exact ih _ (notifyStep_inv delay t sp.1 sp.2 hsp)

/-- Claim C8: a burst of notifications in which each one arrives less than
updateDelay after the previous produces exactly one evaluation, fired
updateDelay after the last notification; and after any notification sequence
at most one timeout is pending, each notification having cancelled the
previously scheduled one. -/
theorem debounce_burst_single_eval (delay t : ℚ) (rest : List ℚ)
    (hchain : List.Chain (fun a b => a ≤ b ∧ b - a < delay) t rest) :
    evalTimes delay (t :: rest) = [(t :: rest).getLastD 0 + delay]
    ∧ ∀ ts : List ℚ, (runBurst delay ts).1.pending.length ≤ 1 := by
  constructor
  · have h0 : notifyStep delay (initTimer, []) t
        = (⟨1, [(0, t + delay)], some 0⟩, []) := by
      simp [notifyStep, initTimer, updateActiveTimed, clearStoredTimeout,
        setTimeoutAt]
    obtain ⟨j, m, hjm⟩ := burst_aux delay rest t 0 1 [] hchain
    unfold evalTimes runBurst
    rw [List.foldl_cons, h0, hjm]
    simp
  · intro ts
    exact (runBurst_inv delay ts).1

/-- Witness for C8: updateDelay 50 and notifications at times 0, 10, 20, each
within 50 of the previous; one evaluation results, at time 70, and mid-burst
at most one timeout is pending. -/
theorem debounce_burst_single_eval_witness :
    evalTimes 50 [0, 10, 20] = [70]
    ∧ (runBurst 50 [0, 10]).1.pending.length ≤ 1 := by
  have hch : List.Chain (fun a b : ℚ => a ≤ b ∧ b - a < 50) 0 [10, 20] :=
    List.Chain.cons ⟨by norm_num, by norm_num⟩
      (List.Chain.cons ⟨by norm_num, by norm_num⟩ List.Chain.nil)
  have h := debounce_burst_single_eval 50 0 [10, 20] hch
  refine ⟨?_, h.2 [0, 10]⟩
  rw [h.1]
  norm_num [List.getLastD_cons, List.getLastD]

end ActiveView
